import Mathlib

/- Shallow embedding of the transcription/translation fan-out core of the
wilberforce demo backend: `OpenAIService` and `WebSocketService` from
`src/services/openaiService.ts`.

Modelling conventions:
- JavaScript strings are `List Char`; `String.prototype.trim` is `trimText`
  and `target.replace(pattern, '')` with a string pattern is `replaceFirst`
  (first occurrence only, as in JavaScript).
- JavaScript `Map`s keyed by strings are functions `String → Option _`
  (`mapSet` / `mapDel` mirror `Map.set` / `Map.delete`).
- JavaScript `Set`s of socket ids are duplicate-free insertion-ordered lists
  (`setAdd` / `setDel` mirror `Set.add` / `Set.delete`).
- Plain-object accumulation (`translations[language] = v`) is an association
  list updated by `insertAL`, which keeps first-insertion key order and
  overwrites values in place, exactly like string-keyed JS objects.
- The remote OpenAI calls are oracles: the outcome of a Whisper call is a
  `TrOutcome`, and the chat-completion translation backend is a
  `TranslatorApi` returning `none` when the call throws.
- Audio `Buffer`s are byte lists `List Nat`; `Date.now()` results are passed
  in as a `now : Nat` argument. -/

/-- Whitespace for the purposes of JavaScript's `String.prototype.trim`. -/
def jsWhitespace (c : Char) : Bool :=
  c == ' ' || c == '\t' || c == '\n' || c == '\r' || c == '\x0b' || c == '\x0c'

/-- JavaScript `s.trim()`: strip whitespace from both ends. -/
def trimText (s : List Char) : List Char :=
  ((s.dropWhile jsWhitespace).reverse.dropWhile jsWhitespace).reverse

/-- JavaScript `s.replace(pat, '')` with a string pattern: remove the first
occurrence of `pat` from `s`; `s` is returned unchanged when `pat` does not
occur (and an empty pattern is removed at position 0, i.e. no change). -/
def replaceFirst : List Char → List Char → List Char
  | [], _ => []
  | c :: rest, pat =>
    if pat.isPrefixOf (c :: rest) then (c :: rest).drop pat.length
    else c :: replaceFirst rest pat

/-- JavaScript `Set.add` (insertion-ordered, no duplicates). -/
def setAdd (s : List String) (x : String) : List String :=
  if x ∈ s then s else s ++ [x]

/-- JavaScript `Set.delete`. -/
def setDel (s : List String) (x : String) : List String :=
  s.filter (fun y => y != x)

/-- JavaScript `Map.set` on a string-keyed map. -/
def mapSet {V : Type} (m : String → Option V) (k : String) (v : V) :
    String → Option V :=
  fun q => if q = k then some v else m q

/-- JavaScript `Map.delete` on a string-keyed map. -/
def mapDel {V : Type} (m : String → Option V) (k : String) :
    String → Option V :=
  fun q => if q = k then none else m q

/-- String-keyed association list lookup (JS object property read). -/
def lookupAL {V : Type} : List (String × V) → String → Option V
  | [], _ => none
  | (k, v) :: rest, q => if k = q then some v else lookupAL rest q

/-- String-keyed association list update (JS object property write): keeps the
first-insertion position of an existing key, appends a new key at the end. -/
def insertAL {V : Type} : List (String × V) → String → V → List (String × V)
  | [], k, v => [(k, v)]
  | (k', v') :: rest, k, v =>
    if k' = k then (k', v) :: rest else (k', v') :: insertAL rest k v

/-- Outcome of one OpenAI chat-completion translation call: `none` models the
call throwing (network fault, empty completion, ...). -/
abbrev TranslatorApi := String → List Char → Option (List Char)

/-- Outcome of one Whisper transcription call on the session's combined
audio: `ok raw` is the returned text (before the service trims it), `fail`
models the call throwing. -/
inductive TrOutcome
  | ok (text : List Char)
  | fail
deriving DecidableEq

/-- One entry of `OpenAIService.sessionContexts`. -/
structure SessionCtx where
  fullTranscript : List Char
  audioChunks : List (List Nat)
  lastProcessedTime : Nat
deriving DecidableEq

/-- `OpenAIService.sessionContexts`: sessionId → session context. -/
abbrev SessionStore := String → Option SessionCtx

/-- `OpenAIService.startTranscriptionSession`. -/
def startTranscriptionSession (store : SessionStore) (sessionId : String)
    (now : Nat) : SessionStore :=
  mapSet store sessionId ⟨[], [], now⟩

/-- `OpenAIService.endTranscriptionSession`. -/
def endTranscriptionSession (store : SessionStore) (sessionId : String) :
    SessionStore :=
  mapDel store sessionId

/-- `OpenAIService.translateText` given the outcome `api` of the underlying
chat call: English returns the input unchanged without calling the API;
otherwise the API outcome is returned (`none` = the call threw). -/
def translateText (api : TranslatorApi) (text : List Char) (target : String) :
    Option (List Char) :=
  if target = "en" then some text else api target text

/-- The per-language translation loop shared by `processTranscriptText` and
`processAudioChunk`: English maps to the source text, any other language maps
to the translation, falling back to the source text when the call throws. -/
def buildTranslations (api : TranslatorApi) (text : List Char)
    (targets : List String) : List (String × List Char) :=
  targets.foldl (fun acc lang =>
    insertAL acc lang
      (if lang = "en" then text
       else (translateText api text lang).getD text)) []

/-- `OpenAIService.processTranscriptText`: returns the original text and the
per-language translation object (empty input short-circuits to empty). -/
def processTranscriptText (api : TranslatorApi) (originalText : List Char)
    (targets : List String) : List Char × List (String × List Char) :=
  if trimText originalText = [] then ([], [])
  else (originalText, buildTranslations api originalText targets)

/-- Result record of `OpenAIService.processAudioChunk`. -/
structure ChunkResult where
  originalText : List Char
  translations : List (String × List Char)
  isComplete : Bool
deriving DecidableEq

/-- `OpenAIService.processAudioChunk` on one session context, given the
Whisper outcome `tr` for the combined audio. The chunk is pushed before the
Whisper call, so it is retained even when the call throws (`Except.error`),
when the trimmed transcript is empty, and when the extracted delta is empty;
the truncation to the last 10 chunks runs only on the full success path. -/
def processAudioChunk (tr : TrOutcome) (api : TranslatorApi) (now : Nat)
    (sess : SessionCtx) (chunk : List Nat) (targets : List String) :
    SessionCtx × Except Unit ChunkResult :=
  let sess1 : SessionCtx :=
    { sess with audioChunks := sess.audioChunks ++ [chunk],
                lastProcessedTime := now }
  match tr with
  | .fail => (sess1, Except.error ())
  | .ok raw =>
    let fullText := trimText raw
    if fullText = [] then (sess1, Except.ok ⟨[], [], false⟩)
    else
      let newText := trimText (replaceFirst fullText sess1.fullTranscript)
      let sess2 := { sess1 with fullTranscript := fullText }
      if newText = [] then (sess2, Except.ok ⟨[], [], false⟩)
      else
        let translations := buildTranslations api newText targets
        let sess3 :=
          if sess2.audioChunks.length > 10 then
            { sess2 with audioChunks :=
                sess2.audioChunks.drop (sess2.audioChunks.length - 10) }
          else sess2
        (sess3, Except.ok ⟨newText, translations, false⟩)

/-- Connection role, derived from join order. -/
inductive Role
  | preacher
  | listener
deriving DecidableEq

/-- One entry of `WebSocketService.connectedUsers`. -/
structure ConnectedUser where
  socketId : String
  roomCode : String
  role : Role
  language : String
deriving DecidableEq

/-- A persisted transcript row as built by `saveTranscript` in
`handleTranscriptText` (original text, translated text or null for English,
language code). -/
structure TranscriptRec where
  roomId : Nat
  originalText : List Char
  translatedText : Option (List Char)
  language : String
deriving DecidableEq

/-- Where an outbound socket.io event is sent. -/
inductive EmitTarget
  | toSocket (id : String)
  | toRoomOthers (room : String) (sender : String)
  | toRoom (room : String)
deriving DecidableEq

/-- Outbound socket.io event payloads of the service. -/
inductive Payload
  | roomJoined (success : Bool) (message : Option String)
  | userJoined (role : Role) (language : Option String)
  | userLeft (role : Role)
  | newTranscript (rec : TranscriptRec)
  | transcriptionStarted (room : String)
  | transcriptionStopped (room : String)
  | roomEnded
  | errorMsg (message : String)
deriving DecidableEq

/-- One outbound emission. -/
structure Emission where
  target : EmitTarget
  payload : Payload
deriving DecidableEq

/-- In-memory state of `WebSocketService`. -/
structure WSState where
  connectedUsers : String → Option ConnectedUser
  roomListeners : String → Option (List String)
  activeTranscriptions : String → Option Bool

/-- `databaseService.getRoomByCode`: room code → room id, `none` when the
room does not exist. -/
abbrev RoomDB := String → Option Nat

/-- `WebSocketService.handleJoinRoom`. -/
def handleJoinRoom (db : RoomDB) (s : WSState) (sid rc lang : String) :
    WSState × List Emission :=
  match db rc with
  | none => (s, [⟨.toSocket sid, .roomJoined false (some "Room not found")⟩])
  | some _rid =>
    let existing := (s.roomListeners rc).getD []
    let role := if existing.length = 0 then Role.preacher else Role.listener
    let s1 : WSState :=
      { s with
        connectedUsers := mapSet s.connectedUsers sid ⟨sid, rc, role, lang⟩,
        roomListeners := mapSet s.roomListeners rc (setAdd existing sid) }
    (s1,
     [⟨.toSocket sid, .roomJoined true none⟩,
      ⟨.toRoomOthers rc sid,
       .userJoined role (if role = Role.listener then some lang else none)⟩])

/-- `WebSocketService.handleLeaveRoom`. -/
def handleLeaveRoom (s : WSState) (sid rc : String) :
    WSState × List Emission :=
  match s.connectedUsers sid with
  | none => (s, [])
  | some user =>
    if user.roomCode ≠ rc then (s, [])
    else
      let s1 : WSState :=
        match s.roomListeners rc with
        | none => s
        | some listeners =>
          let rest := setDel listeners sid
          if rest.length = 0 then
            { s with roomListeners := mapDel s.roomListeners rc,
                     activeTranscriptions := mapDel s.activeTranscriptions rc }
          else { s with roomListeners := mapSet s.roomListeners rc rest }
      let s2 := { s1 with connectedUsers := mapDel s1.connectedUsers sid }
      (s2, [⟨.toRoomOthers rc sid, .userLeft user.role⟩])

/-- `WebSocketService.handleDisconnect` (cleanup part). -/
def handleDisconnect (s : WSState) (sid : String) : WSState × List Emission :=
  match s.connectedUsers sid with
  | none => (s, [])
  | some user => handleLeaveRoom s sid user.roomCode

/-- `WebSocketService.handleStartTranscription`. -/
def handleStartTranscription (s : WSState) (sid rc : String) :
    WSState × List Emission :=
  match s.connectedUsers sid with
  | none => (s, [⟨.toSocket sid, .errorMsg "Unauthorized to start transcription"⟩])
  | some user =>
    if user.role = Role.preacher ∧ user.roomCode = rc then
      ({ s with activeTranscriptions := mapSet s.activeTranscriptions rc true },
       [⟨.toRoom rc, .transcriptionStarted rc⟩])
    else (s, [⟨.toSocket sid, .errorMsg "Unauthorized to start transcription"⟩])

/-- `WebSocketService.handleStopTranscription`. -/
def handleStopTranscription (s : WSState) (sid rc : String) :
    WSState × List Emission :=
  match s.connectedUsers sid with
  | none => (s, [⟨.toSocket sid, .errorMsg "Unauthorized to stop transcription"⟩])
  | some user =>
    if user.role = Role.preacher ∧ user.roomCode = rc then
      ({ s with activeTranscriptions := mapSet s.activeTranscriptions rc false },
       [⟨.toRoom rc, .transcriptionStopped rc⟩])
    else (s, [⟨.toSocket sid, .errorMsg "Unauthorized to stop transcription"⟩])

/-- The per-recipient condition of the broadcast loop in
`handleTranscriptText`: the looked-up user is a preacher, or a listener whose
preferred language is the variant's language. -/
def recipientCheck (users : String → Option ConnectedUser) (x lang : String) :
    Bool :=
  match users x with
  | some u =>
    decide (u.role = Role.preacher ∨
      (u.role = Role.listener ∧ u.language = lang))
  | none => false

/-- Target-language collection of `handleTranscriptText`: a set seeded with
English, plus the (truthy) preferred language of every joined listener-role
member of the room's set. -/
def targetLanguagesOf (users : String → Option ConnectedUser)
    (members : List String) : List String :=
  members.foldl (fun acc x =>
    match users x with
    | some u =>
      if u.role = Role.listener ∧ u.language ≠ "" then setAdd acc u.language
      else acc
    | none => acc) ["en"]

/-- The transcript row saved for one language variant. -/
def mkTranscriptRec (rid : Nat) (orig : List Char) (lang : String)
    (translated : List Char) : TranscriptRec :=
  ⟨rid, orig, if lang = "en" then none else some translated, lang⟩

/-- The save-and-broadcast double loop of `handleTranscriptText`: for every
translation entry, push the saved transcript to every member of the room's
set passing `recipientCheck`. -/
def fanoutEmissions (rid : Nat) (orig : List Char) (members : List String)
    (users : String → Option ConnectedUser)
    (translations : List (String × List Char)) : List Emission :=
  translations.flatMap (fun p =>
    (members.filter (fun x => recipientCheck users x p.1)).map
      (fun x => ⟨.toSocket x, .newTranscript (mkTranscriptRec rid orig p.1 p.2)⟩))

/-- `WebSocketService.handleTranscriptText`. -/
def handleTranscriptText (db : RoomDB) (api : TranslatorApi) (s : WSState)
    (sid rc : String) (txt : List Char) : WSState × List Emission :=
  match s.connectedUsers sid with
  | none => (s, [⟨.toSocket sid, .errorMsg "Unauthorized to send transcript"⟩])
  | some user =>
    if ¬(user.role = Role.preacher ∧ user.roomCode = rc) then
      (s, [⟨.toSocket sid, .errorMsg "Unauthorized to send transcript"⟩])
    else if (s.activeTranscriptions rc).getD false = false then (s, [])
    else if trimText txt = [] then (s, [])
    else
      let members := (s.roomListeners rc).getD []
      let targets := targetLanguagesOf s.connectedUsers members
      let result := processTranscriptText api txt targets
      match db rc with
      | none => (s, [⟨.toSocket sid, .errorMsg "Room not found"⟩])
      | some rid => (s, fanoutEmissions rid result.1 members s.connectedUsers result.2)

/-- Combined in-process state: the websocket service maps plus the OpenAI
service's session store (which no websocket handler ever touches). -/
structure SysState where
  ws : WSState
  sessions : SessionStore

/-- Inbound client events handled by `setupEventHandlers`. -/
inductive Event
  | joinRoom (sid rc lang : String)
  | leaveRoom (sid rc : String)
  | transcriptText (sid rc : String) (txt : List Char)
  | startTranscription (sid rc : String)
  | stopTranscription (sid rc : String)
  | roomEnded (rc : String)
  | disconnect (sid : String)

/-- One dispatcher step: route the event to its handler. -/
def stepE (db : RoomDB) (api : TranslatorApi) (s : SysState) :
    Event → SysState × List Emission
  | .joinRoom sid rc lang =>
    let r := handleJoinRoom db s.ws sid rc lang
    ({ s with ws := r.1 }, r.2)
  | .leaveRoom sid rc =>
    let r := handleLeaveRoom s.ws sid rc
    ({ s with ws := r.1 }, r.2)
  | .transcriptText sid rc txt =>
    let r := handleTranscriptText db api s.ws sid rc txt
    ({ s with ws := r.1 }, r.2)
  | .startTranscription sid rc =>
    let r := handleStartTranscription s.ws sid rc
    ({ s with ws := r.1 }, r.2)
  | .stopTranscription sid rc =>
    let r := handleStopTranscription s.ws sid rc
    ({ s with ws := r.1 }, r.2)
  | .roomEnded rc => (s, [⟨.toRoom rc, .roomEnded⟩])
  | .disconnect sid =>
    let r := handleDisconnect s.ws sid
    ({ s with ws := r.1 }, r.2)

/-- Fresh service state: all maps empty. -/
def initWS : WSState := ⟨fun _ => none, fun _ => none, fun _ => none⟩

/-- Fresh combined state. -/
def initSys : SysState := ⟨initWS, fun _ => none⟩

/-- The membership set of a room (empty when the map has no entry). -/
def membersOf (s : WSState) (rc : String) : List String :=
  (s.roomListeners rc).getD []

/-- Each connection id is in at most one room's membership set. -/
def InvOneRoom (s : WSState) : Prop :=
  ∀ c r1 r2, c ∈ membersOf s r1 → c ∈ membersOf s r2 → r1 = r2

/-- Trace guard: a join-room event is only issued by a connection currently in
no room's membership set. -/
def guardOK (s : SysState) : Event → Prop
  | .joinRoom sid _ _ => ∀ r, sid ∉ membersOf s.ws r
  | _ => True

/-- States reachable from the fresh state by guarded event sequences. -/
inductive ReachableG (db : RoomDB) (api : TranslatorApi) : SysState → Prop
  | init : ReachableG db api initSys
  | step {s : SysState} (e : Event) : ReachableG db api s → guardOK s e →
      ReachableG db api (stepE db api s e).1

/-- The roles carried by the `user-joined` notifications in an emission list. -/
def emittedRoles (out : List Emission) : List Role :=
  out.filterMap (fun e =>
    match e.payload with
    | .userJoined r _ => some r
    | _ => none)

/-- Process a sequence of join-room events for one room, collecting the role
each join announces. -/
def joinSeq (db : RoomDB) (rc : String) :
    WSState → List (String × String) → List Role
  | _, [] => []
  | s, (c, l) :: rest =>
    let r := handleJoinRoom db s c rc l
    emittedRoles r.2 ++ joinSeq db rc r.1 rest

/-- The extracted delta of a `processAudioChunk` result, `none` when the call
threw. -/
def resultDelta (p : SessionCtx × Except Unit ChunkResult) :
    Option (List Char) :=
  match p.2 with
  | .ok r => some r.originalText
  | .error _ => none

/-- A translator API that always throws. -/
def noApi : TranslatorApi := fun _ _ => none

/-- A room database with two rooms `A` and `B`. -/
def demoDB : RoomDB := fun rc =>
  if rc = "A" then some 1 else if rc = "B" then some 2 else none

/-- The per-language value the translation loop stores for one target
language: the source text for English, the translation with source-text
fallback otherwise. -/
def variantFor (api : TranslatorApi) (text : List Char) (lang : String) :
    List Char :=
  if lang = "en" then text else (translateText api text lang).getD text

theorem mem_setAdd {l : List String} {x y : String} :
    y ∈ setAdd l x ↔ y ∈ l ∨ y = x := by
  unfold setAdd
  split
  · constructor
    · exact Or.inl
    · rintro (h | rfl)
      · exact h
      · assumption
  · simp

theorem setAdd_ne_nil {l : List String} {x : String} : setAdd l x ≠ [] := by
  unfold setAdd
  split
  · next hx => intro h; subst h; exact absurd hx (List.not_mem_nil x)
  · simp

theorem mem_setDel {l : List String} {x y : String} :
    y ∈ setDel l x ↔ y ∈ l ∧ y ≠ x := by
  simp [setDel, List.mem_filter]

theorem isPrefixOf_self : ∀ l : List Char, l.isPrefixOf l = true
  | [] => rfl
  | c :: rest => by simp [List.isPrefixOf, isPrefixOf_self rest]

theorem replaceFirst_self (l : List Char) : replaceFirst l l = [] := by
  cases l with
  | nil => rfl
  | cons c rest =>
    unfold replaceFirst
    rw [if_pos (isPrefixOf_self (c :: rest))]
    exact List.drop_length (c :: rest)

theorem lookupAL_insertAL {V : Type} (m : List (String × V)) (k q : String)
    (v : V) :
    lookupAL (insertAL m k v) q = if k = q then some v else lookupAL m q := by
  induction m with
  | nil => simp [insertAL, lookupAL]
  | cons p rest ih =>
    obtain ⟨k', v'⟩ := p
    by_cases hk : k' = k
    · subst hk
      simp only [insertAL, if_pos rfl, lookupAL]
      split <;> rfl
    · simp only [insertAL, if_neg hk, lookupAL]
      by_cases hq : k' = q
      · subst hq
        have : k ≠ k' := fun h => hk h.symm
        simp [this]
      · simp [hq, ih]

theorem lookupAL_foldl_translations (api : TranslatorApi) (text : List Char)
    (ts : List String) (acc : List (String × List Char)) (q : String) :
    lookupAL
      (ts.foldl (fun acc lang =>
        insertAL acc lang
          (if lang = "en" then text
           else (translateText api text lang).getD text)) acc) q =
      if q ∈ ts then some (variantFor api text q) else lookupAL acc q := by
  induction ts generalizing acc with
  | nil => simp
  | cons t rest ih =>
    rw [List.foldl_cons, ih]
    by_cases hq : q ∈ rest
    · simp [hq]
    · simp only [hq, if_false]
      rw [lookupAL_insertAL]
      by_cases ht : t = q
      · subst ht
        simp [variantFor]
      · have : q ≠ t := fun h => ht h.symm
        simp [List.mem_cons, ht, hq, this]

theorem lookupAL_buildTranslations (api : TranslatorApi) (text : List Char)
    (targets : List String) (q : String) :
    lookupAL (buildTranslations api text targets) q =
      if q ∈ targets then some (variantFor api text q) else none := by
  unfold buildTranslations
  rw [lookupAL_foldl_translations]
  rfl

theorem recipientCheck_iff (users : String → Option ConnectedUser)
    (x lang : String) :
    recipientCheck users x lang = true ↔
      ∃ w, users x = some w ∧
        (w.role = Role.preacher ∨
          (w.role = Role.listener ∧ w.language = lang)) := by
  unfold recipientCheck
  cases h : users x with
  | none => simp
  | some u => simp

theorem handleTranscriptText_fst (db : RoomDB) (api : TranslatorApi)
    (s : WSState) (sid rc : String) (txt : List Char) :
    (handleTranscriptText db api s sid rc txt).1 = s := by
  unfold handleTranscriptText
  cases s.connectedUsers sid with
  | none => rfl
  | some u =>
    dsimp only
    split
    · rfl
    · split
      · rfl
      · split
        · rfl
        · cases db rc <;> rfl

theorem roomListeners_handleStartTranscription (s : WSState) (sid rc : String) :
    (handleStartTranscription s sid rc).1.roomListeners = s.roomListeners := by
  unfold handleStartTranscription
  cases s.connectedUsers sid with
  | none => rfl
  | some u =>
    dsimp only
    split <;> rfl

theorem roomListeners_handleStopTranscription (s : WSState) (sid rc : String) :
    (handleStopTranscription s sid rc).1.roomListeners = s.roomListeners := by
  unfold handleStopTranscription
  cases s.connectedUsers sid with
  | none => rfl
  | some u =>
    dsimp only
    split <;> rfl

theorem handleJoinRoom_none (db : RoomDB) (s : WSState) (sid rc lang : String)
    (hdb : db rc = none) : (handleJoinRoom db s sid rc lang).1 = s := by
  unfold handleJoinRoom
  simp only [hdb]

theorem membersOf_handleJoinRoom_some (db : RoomDB) (s : WSState)
    (sid rc lang : String) (rid : Nat) (hdb : db rc = some rid) (r : String) :
    membersOf (handleJoinRoom db s sid rc lang).1 r =
      if r = rc then setAdd (membersOf s rc) sid else membersOf s r := by
  unfold handleJoinRoom membersOf
  simp only [hdb]
  by_cases hr : r = rc <;> simp [mapSet, hr]

theorem membersOf_handleLeaveRoom_subset (s : WSState) (sid rc r c : String)
    (h : c ∈ membersOf (handleLeaveRoom s sid rc).1 r) : c ∈ membersOf s r := by
  unfold handleLeaveRoom at h
  cases hu : s.connectedUsers sid with
  | none => rw [hu] at h; exact h
  | some user =>
    rw [hu] at h
    dsimp only at h
    by_cases hrc : user.roomCode ≠ rc
    · rw [if_pos hrc] at h; exact h
    · rw [if_neg hrc] at h
      dsimp only at h
      cases hl : s.roomListeners rc with
      | none => rw [hl] at h; exact h
      | some listeners =>
        rw [hl] at h
        dsimp only at h
        by_cases hz : (setDel listeners sid).length = 0
        · rw [if_pos hz] at h
          unfold membersOf mapDel at h
          dsimp only at h
          by_cases hr : r = rc
          · rw [if_pos hr] at h
            exact absurd h (List.not_mem_nil c)
          · rw [if_neg hr] at h
            exact h
        · rw [if_neg hz] at h
          unfold membersOf mapSet at h
          dsimp only at h
          by_cases hr : r = rc
          · rw [if_pos hr] at h
            subst hr
            unfold membersOf
            rw [hl]
            exact (mem_setDel.mp h).1
          · rw [if_neg hr] at h
            exact h

theorem membersOf_handleDisconnect_subset (s : WSState) (sid r c : String)
    (h : c ∈ membersOf (handleDisconnect s sid).1 r) : c ∈ membersOf s r := by
  unfold handleDisconnect at h
  cases hu : s.connectedUsers sid with
  | none => rw [hu] at h; exact h
  | some user =>
    rw [hu] at h
    exact membersOf_handleLeaveRoom_subset s sid user.roomCode r c h

theorem handleJoinRoom_role_emitted (db : RoomDB) (s : WSState)
    (sid rc lang : String) (rid : Nat) (hdb : db rc = some rid) :
    emittedRoles (handleJoinRoom db s sid rc lang).2 =
      [if (membersOf s rc).length = 0 then Role.preacher else Role.listener] := by
  unfold handleJoinRoom membersOf
  simp only [hdb]
  by_cases h : ((s.roomListeners rc).getD []).length = 0 <;>
    simp [h, emittedRoles]

theorem joinSeq_nonempty (db : RoomDB) (rc : String) (rid : Nat)
    (hdb : db rc = some rid) :
    ∀ (conns : List (String × String)) (s : WSState), membersOf s rc ≠ [] →
      joinSeq db rc s conns = List.replicate conns.length Role.listener := by
  intro conns
  induction conns with
  | nil => intro s _; rfl
  | cons c rest ih =>
    intro s h
    obtain ⟨cid, clang⟩ := c
    simp only [joinSeq]
    rw [handleJoinRoom_role_emitted db s cid rc clang rid hdb]
    have hlen : (membersOf s rc).length ≠ 0 := by
      intro h0
      exact h (List.length_eq_zero.mp h0)
    rw [if_neg hlen]
    have hnext : membersOf (handleJoinRoom db s cid rc clang).1 rc ≠ [] := by
      rw [membersOf_handleJoinRoom_some db s cid rc clang rid hdb rc, if_pos rfl]
      exact setAdd_ne_nil
    rw [ih (handleJoinRoom db s cid rc clang).1 hnext]
    simp [List.replicate_succ]

/-- C1: for every sequence of join-room events on a room whose membership set
is empty, the first connection to successfully join is announced as preacher
and every later join (the set now being non-empty) is announced as listener. -/
theorem first_join_preacher_rest_listeners (db : RoomDB) (rc : String)
    (rid : Nat) (s : WSState) (hdb : db rc = some rid)
    (hempty : membersOf s rc = []) (conns : List (String × String))
    (hne : conns ≠ []) :
    joinSeq db rc s conns =
      Role.preacher :: List.replicate (conns.length - 1) Role.listener := by
  cases conns with
  | nil => exact absurd rfl hne
  | cons c rest =>
    obtain ⟨cid, clang⟩ := c
    simp only [joinSeq]
    rw [handleJoinRoom_role_emitted db s cid rc clang rid hdb, hempty]
    have hnext : membersOf (handleJoinRoom db s cid rc clang).1 rc ≠ [] := by
      rw [membersOf_handleJoinRoom_some db s cid rc clang rid hdb rc, if_pos rfl]
      exact setAdd_ne_nil
    rw [joinSeq_nonempty db rc rid hdb rest _ hnext]
    simp

/-- C1 witness: on room `A` of the demo database, joining `c1` then `c2` then
`c3` announces preacher, listener, listener. -/
theorem first_join_preacher_rest_listeners_witness :
    joinSeq demoDB "A" initWS [("c1", "en"), ("c2", "es"), ("c3", "fr")] =
      Role.preacher ::
        List.replicate
          (([("c1", "en"), ("c2", "es"), ("c3", "fr")] :
            List (String × String)).length - 1) Role.listener :=
  first_join_preacher_rest_listeners demoDB "A" 1 initWS rfl rfl
    [("c1", "en"), ("c2", "es"), ("c3", "fr")] (by decide)

/-- State after `c1` joins room `A` of the demo database. -/
def joinedA : SysState :=
  (stepE demoDB noApi initSys (Event.joinRoom "c1" "A" "en")).1

/-- State after `c1`, already joined to `A`, also joins room `B`. -/
def joinedAB : SysState :=
  (stepE demoDB noApi joinedA (Event.joinRoom "c1" "B" "en")).1

/-- C3 counterexample: a connection that sends join-room for a second room
while already joined ends up in both rooms' membership sets, so the claimed
invariant fails on the reachable state `joinedAB`. -/
theorem join_second_room_breaks_invariant :
    "c1" ∈ membersOf joinedAB.ws "A" ∧ "c1" ∈ membersOf joinedAB.ws "B" ∧
      ("A" : String) ≠ "B" ∧ ¬InvOneRoom joinedAB.ws := by
  refine ⟨by decide, by decide, by decide, fun h => ?_⟩
  exact absurd (h "c1" "A" "B" (by decide) (by decide)) (by decide)

/-- C3 amended: along event sequences in which every join-room is issued by a
connection currently in no room's membership set, every reachable state keeps
each connection id in at most one room's set. -/
theorem reachable_at_most_one_room (db : RoomDB) (api : TranslatorApi)
    {s : SysState} (h : ReachableG db api s) : InvOneRoom s.ws := by
  induction h with
  | init =>
    intro c r1 r2 h1 _
    simp [membersOf, initSys, initWS] at h1
  | @step s e hre hguard ih =>
    cases e with
    | joinRoom sid rc lang =>
      cases hdb : db rc with
      | none =>
        intro c r1 r2 h1 h2
        simp only [stepE] at h1 h2
        rw [handleJoinRoom_none db s.ws sid rc lang hdb] at h1 h2
        exact ih c r1 r2 h1 h2
      | some rid =>
        intro c r1 r2 h1 h2
        simp only [stepE] at h1 h2
        rw [membersOf_handleJoinRoom_some db s.ws sid rc lang rid hdb] at h1 h2
        have hg : ∀ r, sid ∉ membersOf s.ws r := hguard
        by_cases e1 : r1 = rc <;> by_cases e2 : r2 = rc
        · rw [e1, e2]
        · rw [if_pos e1] at h1
          rw [if_neg e2] at h2
          rcases mem_setAdd.mp h1 with hin | rfl
          · exact e1.trans (ih c rc r2 hin h2)
          · exact absurd h2 (hg r2)
        · rw [if_neg e1] at h1
          rw [if_pos e2] at h2
          rcases mem_setAdd.mp h2 with hin | rfl
          · exact (ih c r1 rc h1 hin).trans e2.symm
          · exact absurd h1 (hg r1)
        · rw [if_neg e1] at h1
          rw [if_neg e2] at h2
          exact ih c r1 r2 h1 h2
    | leaveRoom sid rc =>
      intro c r1 r2 h1 h2
      simp only [stepE] at h1 h2
      exact ih c r1 r2 (membersOf_handleLeaveRoom_subset s.ws sid rc r1 c h1)
        (membersOf_handleLeaveRoom_subset s.ws sid rc r2 c h2)
    | transcriptText sid rc txt =>
      intro c r1 r2 h1 h2
      simp only [stepE] at h1 h2
      rw [handleTranscriptText_fst db api s.ws sid rc txt] at h1 h2
      exact ih c r1 r2 h1 h2
    | startTranscription sid rc =>
      intro c r1 r2 h1 h2
      simp only [stepE, membersOf] at h1 h2
      rw [roomListeners_handleStartTranscription s.ws sid rc] at h1 h2
      exact ih c r1 r2 h1 h2
    | stopTranscription sid rc =>
      intro c r1 r2 h1 h2
      simp only [stepE, membersOf] at h1 h2
      rw [roomListeners_handleStopTranscription s.ws sid rc] at h1 h2
      exact ih c r1 r2 h1 h2
    | roomEnded rc =>
      exact ih
    | disconnect sid =>
      intro c r1 r2 h1 h2
      simp only [stepE] at h1 h2
      exact ih c r1 r2 (membersOf_handleDisconnect_subset s.ws sid r1 c h1)
        (membersOf_handleDisconnect_subset s.ws sid r2 c h2)

/-- C3 amended witness: the invariant holds at the guarded reachable state in
which `c1` has joined room `A` from the fresh state. -/
theorem reachable_at_most_one_room_witness : InvOneRoom joinedA.ws :=
  reachable_at_most_one_room demoDB noApi
    (ReachableG.step (Event.joinRoom "c1" "A" "en") ReachableG.init
      (by intro r; simp [membersOf, initSys, initWS]))

/-- C6: whenever Whisper returns a transcript that is non-empty after
trimming, the extracted delta is the fresh transcript with the stored full
transcript removed as a first-occurrence substring and then trimmed, the
stored transcript is replaced by the fresh one, and a fresh transcript
identical to the stored one yields an empty delta. -/
theorem delta_extraction_correct (api : TranslatorApi) (now : Nat)
    (sess : SessionCtx) (chunk : List Nat) (targets : List String)
    (raw : List Char) (hraw : trimText raw ≠ []) :
    (processAudioChunk (TrOutcome.ok raw) api now sess chunk targets).1.fullTranscript
        = trimText raw ∧
    resultDelta (processAudioChunk (TrOutcome.ok raw) api now sess chunk targets)
        = some (trimText (replaceFirst (trimText raw) sess.fullTranscript)) ∧
    (trimText raw = sess.fullTranscript →
      resultDelta (processAudioChunk (TrOutcome.ok raw) api now sess chunk targets)
        = some []) := by
  have hdelta :
      resultDelta (processAudioChunk (TrOutcome.ok raw) api now sess chunk targets)
        = some (trimText (replaceFirst (trimText raw) sess.fullTranscript)) := by
    unfold processAudioChunk
    dsimp only
    rw [if_neg hraw]
    by_cases hnew : trimText (replaceFirst (trimText raw) sess.fullTranscript) = []
    · rw [if_pos hnew, hnew]
      rfl
    · rw [if_neg hnew]
      rfl
  refine ⟨?_, hdelta, ?_⟩
  · unfold processAudioChunk
    dsimp only
    rw [if_neg hraw]
    by_cases hnew : trimText (replaceFirst (trimText raw) sess.fullTranscript) = []
    · rw [if_pos hnew]
    · rw [if_neg hnew]
      dsimp only
      split <;> rfl
  · intro heq
    rw [hdelta, heq, replaceFirst_self]
    rfl

/-- C6 witness: with stored transcript `hello` and fresh transcript
`hello world`, the delta is `world` and the stored transcript becomes the
fresh one. -/
theorem delta_extraction_correct_witness :
    (processAudioChunk (TrOutcome.ok "hello world".toList) noApi 0
        ⟨"hello".toList, [], 0⟩ [0] ["en"]).1.fullTranscript
      = trimText "hello world".toList ∧
    resultDelta (processAudioChunk (TrOutcome.ok "hello world".toList) noApi 0
        ⟨"hello".toList, [], 0⟩ [0] ["en"])
      = some (trimText (replaceFirst (trimText "hello world".toList)
          "hello".toList)) ∧
    (trimText "hello world".toList = "hello".toList →
      resultDelta (processAudioChunk (TrOutcome.ok "hello world".toList) noApi 0
          ⟨"hello".toList, [], 0⟩ [0] ["en"]) = some []) :=
  delta_extraction_correct noApi 0 ⟨"hello".toList, [], 0⟩ [0] ["en"]
    "hello world".toList (by decide)

/-- A session context already holding 10 buffered audio chunks. -/
def tenChunkSess : SessionCtx := ⟨[], List.replicate 10 [0], 0⟩

/-- C7 counterexample: when the Whisper call returns an empty transcript, the
call returns before the truncation step, so the appended chunk stays and the
buffer holds 11 > 10 chunks after the call completes. -/
theorem audio_buffer_exceeds_ten :
    (processAudioChunk (TrOutcome.ok []) noApi 1 tenChunkSess [0]
        ["en"]).1.audioChunks.length = 11 ∧ ¬(11 ≤ 10) := by
  constructor
  · decide
  · decide

/-- C7 amended: only on calls that reach the translation stage (non-empty
trimmed transcript and non-empty delta) is the buffer truncated; such a call
leaves exactly `min (n + 1) 10` chunks where `n` was the buffer length before
the call, hence at most 10. -/
theorem audio_buffer_truncated_on_success (api : TranslatorApi) (now : Nat)
    (sess : SessionCtx) (chunk : List Nat) (targets : List String)
    (raw : List Char) (hraw : trimText raw ≠ [])
    (hdelta : trimText (replaceFirst (trimText raw) sess.fullTranscript) ≠ []) :
    (processAudioChunk (TrOutcome.ok raw) api now sess chunk
        targets).1.audioChunks.length = min (sess.audioChunks.length + 1) 10 := by
  unfold processAudioChunk
  dsimp only
  rw [if_neg hraw, if_neg hdelta]
  dsimp only
  split
  · next hgt =>
    simp only [List.length_drop, List.length_append, List.length_singleton] at hgt ⊢
    omega
  · next hle =>
    simp only [List.length_append, List.length_singleton] at hle ⊢
    omega

/-- C7 amended witness: a successful call on a 10-chunk buffer leaves
`min (10 + 1) 10 = 10` chunks. -/
theorem audio_buffer_truncated_on_success_witness :
    (processAudioChunk (TrOutcome.ok "hi".toList) noApi 1 tenChunkSess [0]
        ["en"]).1.audioChunks.length =
      min (tenChunkSess.audioChunks.length + 1) 10 :=
  audio_buffer_truncated_on_success noApi 1 tenChunkSess [0] ["en"]
    "hi".toList (by decide) (by decide)

theorem handleTranscriptText_success (db : RoomDB) (api : TranslatorApi)
    (s : WSState) (sid rc : String) (txt : List Char) (u : ConnectedUser)
    (rid : Nat) (hu : s.connectedUsers sid = some u)
    (hrole : u.role = Role.preacher) (hroom : u.roomCode = rc)
    (hact : (s.activeTranscriptions rc).getD false = true)
    (htxt : trimText txt ≠ []) (hdb : db rc = some rid) :
    (handleTranscriptText db api s sid rc txt).2 =
      fanoutEmissions rid txt ((s.roomListeners rc).getD []) s.connectedUsers
        (buildTranslations api txt
          (targetLanguagesOf s.connectedUsers ((s.roomListeners rc).getD []))) := by
  unfold handleTranscriptText
  simp only [hu]
  rw [if_neg (not_not_intro ⟨hrole, hroom⟩)]
  rw [if_neg (by simp [hact])]
  rw [if_neg htxt]
  simp only [hdb]
  unfold processTranscriptText
  rw [if_neg htxt]

/-- C4: on a delta fan-out (authorized preacher, active flag, non-empty text,
existing room), the variant of language `L` is pushed to socket `x` exactly
when `x` is in the room's membership set and `x`'s user record is the
preacher or a listener whose preferred language is `L`. -/
theorem fanout_recipients (db : RoomDB) (api : TranslatorApi) (s : WSState)
    (sid rc : String) (txt : List Char) (u : ConnectedUser) (rid : Nat)
    (L : String) (v : List Char) (x : String)
    (hu : s.connectedUsers sid = some u) (hrole : u.role = Role.preacher)
    (hroom : u.roomCode = rc)
    (hact : (s.activeTranscriptions rc).getD false = true)
    (htxt : trimText txt ≠ []) (hdb : db rc = some rid)
    (hLv : (L, v) ∈ buildTranslations api txt
      (targetLanguagesOf s.connectedUsers ((s.roomListeners rc).getD []))) :
    (Emission.mk (EmitTarget.toSocket x)
        (Payload.newTranscript (mkTranscriptRec rid txt L v)) ∈
      (handleTranscriptText db api s sid rc txt).2) ↔
      (x ∈ (s.roomListeners rc).getD [] ∧
        ∃ w, s.connectedUsers x = some w ∧
          (w.role = Role.preacher ∨
            (w.role = Role.listener ∧ w.language = L))) := by
  rw [handleTranscriptText_success db api s sid rc txt u rid hu hrole hroom
    hact htxt hdb]
  unfold fanoutEmissions
  rw [List.mem_flatMap]
  constructor
  · rintro ⟨⟨L', v'⟩, hp, hm⟩
    rw [List.mem_map] at hm
    obtain ⟨y, hy, heq⟩ := hm
    rw [Emission.mk.injEq, EmitTarget.toSocket.injEq,
      Payload.newTranscript.injEq] at heq
    obtain ⟨hyx, hrec⟩ := heq
    rw [hyx] at hy
    have hL : L' = L := by
      have := congrArg TranscriptRec.language hrec
      simpa [mkTranscriptRec] using this
    rw [List.mem_filter] at hy
    refine ⟨hy.1, ?_⟩
    have hrcp := hy.2
    rw [hL] at hrcp
    exact (recipientCheck_iff s.connectedUsers x L).mp hrcp
  · rintro ⟨hxm, w, hw, hcond⟩
    refine ⟨(L, v), hLv, ?_⟩
    rw [List.mem_map]
    refine ⟨x, ?_, rfl⟩
    rw [List.mem_filter]
    exact ⟨hxm, (recipientCheck_iff s.connectedUsers x L).mpr ⟨w, hw, hcond⟩⟩

/-- Connected-users map with preacher `c1` (English) and listener `c2`
(Spanish), both joined to room `R`. -/
def demoUsers : String → Option ConnectedUser := fun k =>
  if k = "c1" then some ⟨"c1", "R", Role.preacher, "en"⟩
  else if k = "c2" then some ⟨"c2", "R", Role.listener, "es"⟩
  else none

/-- Websocket state for room `R` with `c1` and `c2` joined and transcription
active. -/
def demoWS : WSState :=
  ⟨demoUsers, fun k => if k = "R" then some ["c1", "c2"] else none,
    fun k => if k = "R" then some true else none⟩

/-- Database holding the single room `R`. -/
def demoRDB : RoomDB := fun rc => if rc = "R" then some 1 else none

/-- Translator that succeeds for Spanish only. -/
def esApi : TranslatorApi := fun lang _ =>
  if lang = "es" then some "hola".toList else none

/-- C4 witness: in the two-member room `R`, the Spanish variant reaches the
Spanish listener `c2` exactly as the characterization states. -/
theorem fanout_recipients_witness :
    (Emission.mk (EmitTarget.toSocket "c2")
        (Payload.newTranscript (mkTranscriptRec 1 "Hello".toList "es"
          "hola".toList)) ∈
      (handleTranscriptText demoRDB esApi demoWS "c1" "R" "Hello".toList).2) ↔
      ("c2" ∈ (demoWS.roomListeners "R").getD [] ∧
        ∃ w, demoWS.connectedUsers "c2" = some w ∧
          (w.role = Role.preacher ∨
            (w.role = Role.listener ∧ w.language = "es"))) :=
  fanout_recipients demoRDB esApi demoWS "c1" "R" "Hello".toList
    ⟨"c1", "R", Role.preacher, "en"⟩ 1 "es" "hola".toList "c2"
    rfl rfl rfl rfl (by decide) rfl (by decide)

/-- C5: when translating to language `L` fails, the fan-out still carries a
variant for `L` equal to the untranslated source text, and the variant of any
other target language `M` is the same as under any translator that agrees
outside `L` (in particular one that succeeds on `L`). -/
theorem translation_failure_isolated (api api' : TranslatorApi)
    (txt : List Char) (targets : List String) (L M : String)
    (hfail : api L txt = none) (hagree : ∀ N, N ≠ L → api' N = api N)
    (hL : L ∈ targets) (hM : M ∈ targets) (hML : M ≠ L) :
    lookupAL (buildTranslations api txt targets) L = some txt ∧
    lookupAL (buildTranslations api txt targets) M =
      lookupAL (buildTranslations api' txt targets) M := by
  rw [lookupAL_buildTranslations, lookupAL_buildTranslations,
    lookupAL_buildTranslations, if_pos hL, if_pos hM, if_pos hM]
  constructor
  · have hvar : variantFor api txt L = txt := by
      unfold variantFor translateText
      by_cases hen : L = "en"
      · simp [hen]
      · simp [hen, hfail]
    rw [hvar]
  · have hvar : variantFor api txt M = variantFor api' txt M := by
      unfold variantFor translateText
      by_cases hen : M = "en"
      · simp [hen]
      · simp [hen, hagree M hML]
    rw [hvar]

/-- Translator that succeeds for French only (Spanish fails). -/
def frApi : TranslatorApi := fun lang _ =>
  if lang = "fr" then some "bonjour".toList else none

/-- Like `frApi` but with the Spanish translation succeeding. -/
def frApiFixed : TranslatorApi := fun lang t =>
  if lang = "es" then some "hola".toList else frApi lang t

/-- C5 witness: with targets `en`, `es`, `fr` and the Spanish call failing,
the Spanish variant is the untranslated source text and the French variant is
unchanged relative to the translator whose Spanish call succeeds. -/
theorem translation_failure_isolated_witness :
    lookupAL (buildTranslations frApi "hi".toList ["en", "es", "fr"]) "es" =
      some "hi".toList ∧
    lookupAL (buildTranslations frApi "hi".toList ["en", "es", "fr"]) "fr" =
      lookupAL (buildTranslations frApiFixed "hi".toList ["en", "es", "fr"])
        "fr" :=
  translation_failure_isolated frApi frApiFixed "hi".toList ["en", "es", "fr"]
    "es" "fr" rfl
    (by
      intro N hN
      funext t
      simp [frApiFixed, hN])
    (by decide) (by decide) (by decide)

/-- Combined state: room `R` has the single member `c1` (its preacher),
transcription is active, and the session store holds a Speaking Session under
the room's code. -/
def lastMemberState : SysState :=
  ⟨⟨fun k => if k = "c1" then some ⟨"c1", "R", Role.preacher, "en"⟩ else none,
    fun k => if k = "R" then some ["c1"] else none,
    fun k => if k = "R" then some true else none⟩,
    fun k => if k = "R" then some ⟨"hi".toList, [[0]], 0⟩ else none⟩

/-- C2 counterexample: when the last member of room `R` leaves, the
membership entry and the Activity Flag are removed, but the Speaking Session
stored for the room survives — contrary to the claim that no session state
exists afterwards. -/
theorem leave_last_keeps_session :
    (stepE demoDB noApi lastMemberState
        (Event.leaveRoom "c1" "R")).1.ws.roomListeners "R" = none ∧
    (stepE demoDB noApi lastMemberState
        (Event.leaveRoom "c1" "R")).1.ws.activeTranscriptions "R" = none ∧
    (stepE demoDB noApi lastMemberState
        (Event.leaveRoom "c1" "R")).1.sessions "R" =
      some ⟨"hi".toList, [[0]], 0⟩ := by
  refine ⟨by decide, by decide, by decide⟩

/-- C2 amended: when a leave-room or disconnect empties a room's membership
set, the room's membership entry and Activity Flag are deleted (so its
transcription is inactive afterwards), while the session store is untouched —
no handler ever destroys a Speaking Session. -/
theorem leave_last_clears_flag_keeps_sessions (db : RoomDB)
    (api : TranslatorApi) (s : SysState) (sid rc : String)
    (u : ConnectedUser) (l : List String) (e : Event)
    (hu : s.ws.connectedUsers sid = some u) (hrc : u.roomCode = rc)
    (hl : s.ws.roomListeners rc = some l) (hlast : setDel l sid = [])
    (he : e = Event.leaveRoom sid rc ∨ e = Event.disconnect sid) :
    (stepE db api s e).1.ws.roomListeners rc = none ∧
    (stepE db api s e).1.ws.activeTranscriptions rc = none ∧
    ((stepE db api s e).1.ws.activeTranscriptions rc).getD false = false ∧
    (stepE db api s e).1.sessions = s.sessions := by
  have key : (handleLeaveRoom s.ws sid rc).1.roomListeners rc = none ∧
      (handleLeaveRoom s.ws sid rc).1.activeTranscriptions rc = none := by
    unfold handleLeaveRoom
    simp only [hu]
    rw [if_neg (not_not_intro hrc)]
    simp only [hl]
    rw [hlast]
    simp [mapDel]
  rcases he with rfl | rfl
  · simp only [stepE]
    exact ⟨key.1, key.2, by rw [key.2]; rfl, trivial⟩
  · have hd : handleDisconnect s.ws sid = handleLeaveRoom s.ws sid rc := by
      unfold handleDisconnect
      simp only [hu, hrc]
    simp only [stepE, hd]
    exact ⟨key.1, key.2, by rw [key.2]; rfl, trivial⟩

/-- C2 amended witness: leaving the last member of room `R` in
`lastMemberState` clears the membership entry and flag and leaves the session
store untouched. -/
theorem leave_last_clears_flag_keeps_sessions_witness :
    (stepE demoDB noApi lastMemberState
        (Event.leaveRoom "c1" "R")).1.ws.roomListeners "R" = none ∧
    (stepE demoDB noApi lastMemberState
        (Event.leaveRoom "c1" "R")).1.ws.activeTranscriptions "R" = none ∧
    ((stepE demoDB noApi lastMemberState
        (Event.leaveRoom "c1" "R")).1.ws.activeTranscriptions "R").getD false
      = false ∧
    (stepE demoDB noApi lastMemberState
        (Event.leaveRoom "c1" "R")).1.sessions = lastMemberState.sessions :=
  leave_last_clears_flag_keeps_sessions demoDB noApi lastMemberState "c1" "R"
    ⟨"c1", "R", Role.preacher, "en"⟩ ["c1"] (Event.leaveRoom "c1" "R")
    rfl rfl rfl (by decide) (Or.inl rfl)

/-- C8: a sender that is not the joined preacher of the named room gets back
exactly one Unauthorized error (to itself) from transcript-text,
start-transcription, and stop-transcription, and the whole state — membership
sets, user records, Activity Flags, sessions — is unchanged. -/
theorem unauthorized_no_state_change (db : RoomDB) (api : TranslatorApi)
    (s : SysState) (sid rc : String) (txt : List Char)
    (hnp : ∀ u, s.ws.connectedUsers sid = some u →
      ¬(u.role = Role.preacher ∧ u.roomCode = rc)) :
    stepE db api s (Event.transcriptText sid rc txt) =
      (s, [⟨EmitTarget.toSocket sid,
        Payload.errorMsg "Unauthorized to send transcript"⟩]) ∧
    stepE db api s (Event.startTranscription sid rc) =
      (s, [⟨EmitTarget.toSocket sid,
        Payload.errorMsg "Unauthorized to start transcription"⟩]) ∧
    stepE db api s (Event.stopTranscription sid rc) =
      (s, [⟨EmitTarget.toSocket sid,
        Payload.errorMsg "Unauthorized to stop transcription"⟩]) := by
  cases hu : s.ws.connectedUsers sid with
  | none =>
    refine ⟨?_, ?_, ?_⟩ <;>
      simp only [stepE, handleTranscriptText, handleStartTranscription,
        handleStopTranscription, hu]
  | some u =>
    have hcond := hnp u hu
    refine ⟨?_, ?_, ?_⟩
    · simp only [stepE, handleTranscriptText, hu]
      rw [if_pos hcond]
    · simp only [stepE, handleStartTranscription, hu]
      rw [if_neg hcond]
    · simp only [stepE, handleStopTranscription, hu]
      rw [if_neg hcond]

/-- Websocket-only state: listener `c2` joined to room `R`, flag unset. -/
def listenerOnlyState : SysState :=
  ⟨⟨fun k => if k = "c2" then some ⟨"c2", "R", Role.listener, "es"⟩ else none,
    fun k => if k = "R" then some ["c2"] else none,
    fun _ => none⟩,
    fun _ => none⟩

/-- C8 witness: the listener `c2` is rejected by all three privileged events
with no state change. -/
theorem unauthorized_no_state_change_witness :
    stepE demoDB noApi listenerOnlyState
        (Event.transcriptText "c2" "R" "hi".toList) =
      (listenerOnlyState, [⟨EmitTarget.toSocket "c2",
        Payload.errorMsg "Unauthorized to send transcript"⟩]) ∧
    stepE demoDB noApi listenerOnlyState (Event.startTranscription "c2" "R") =
      (listenerOnlyState, [⟨EmitTarget.toSocket "c2",
        Payload.errorMsg "Unauthorized to start transcription"⟩]) ∧
    stepE demoDB noApi listenerOnlyState (Event.stopTranscription "c2" "R") =
      (listenerOnlyState, [⟨EmitTarget.toSocket "c2",
        Payload.errorMsg "Unauthorized to stop transcription"⟩]) :=
  unauthorized_no_state_change demoDB noApi listenerOnlyState "c2" "R"
    "hi".toList
    (by
      intro u hu
      simp [listenerOnlyState] at hu
      subst hu
      decide)

/-- C9: a transcript-text event from the joined preacher is dropped silently
— no emission at all and no state change — when the room's Activity Flag
is unset/false or the text is empty after trimming. -/
theorem inactive_or_empty_dropped (db : RoomDB) (api : TranslatorApi)
    (s : SysState) (sid rc : String) (txt : List Char) (u : ConnectedUser)
    (hu : s.ws.connectedUsers sid = some u) (hrole : u.role = Role.preacher)
    (hroom : u.roomCode = rc)
    (hdrop : (s.ws.activeTranscriptions rc).getD false = false ∨
      trimText txt = []) :
    stepE db api s (Event.transcriptText sid rc txt) = (s, []) := by
  simp only [stepE, handleTranscriptText, hu]
  rw [if_neg (not_not_intro ⟨hrole, hroom⟩)]
  rcases hdrop with hflag | htxt
  · rw [if_pos hflag]
  · cases hflag : (s.ws.activeTranscriptions rc).getD false with
    | false => rw [if_pos rfl]
    | true =>
      rw [if_neg (fun hcon => absurd hcon (by simp))]
      rw [if_pos htxt]

/-- Websocket-only state: preacher `c1` joined to room `R`, flag unset. -/
def preacherFlagOffState : SysState :=
  ⟨⟨fun k => if k = "c1" then some ⟨"c1", "R", Role.preacher, "en"⟩ else none,
    fun k => if k = "R" then some ["c1"] else none,
    fun _ => none⟩,
    fun _ => none⟩

/-- C9 witness: the preacher's transcript-text while the flag is unset yields
no emission and no state change. -/
theorem inactive_or_empty_dropped_witness :
    stepE demoDB noApi preacherFlagOffState
        (Event.transcriptText "c1" "R" "hi".toList) =
      (preacherFlagOffState, []) :=
  inactive_or_empty_dropped demoDB noApi preacherFlagOffState "c1" "R"
    "hi".toList ⟨"c1", "R", Role.preacher, "en"⟩ rfl rfl rfl (Or.inl rfl)

/-- C10: a leave-room event whose room code differs from the room the sender
is joined to (or from a connection joined nowhere) leaves the whole state
unchanged and emits nothing. -/
theorem leave_mismatch_noop (db : RoomDB) (api : TranslatorApi) (s : SysState)
    (sid rc : String)
    (h : ∀ u, s.ws.connectedUsers sid = some u → u.roomCode ≠ rc) :
    stepE db api s (Event.leaveRoom sid rc) = (s, []) := by
  cases hu : s.ws.connectedUsers sid with
  | none => simp only [stepE, handleLeaveRoom, hu]
  | some u =>
    simp only [stepE, handleLeaveRoom, hu]
    rw [if_pos (h u hu)]

/-- C10 witness: `c1` is joined to room `R`; leave-room for `S` is a complete
no-op with no emission. -/
theorem leave_mismatch_noop_witness :
    stepE demoDB noApi preacherFlagOffState (Event.leaveRoom "c1" "S") =
      (preacherFlagOffState, []) :=
  leave_mismatch_noop demoDB noApi preacherFlagOffState "c1" "S"
    (by
      intro u hu
      simp [preacherFlagOffState] at hu
      subst hu
      decide)
